import Mathlib

/-!
Verification development for the RSS batch-ingestion scripts
(rss_batch_service.py, clean_up_old_posts.py).

Texts are modelled as `List Char`.  The Python regular-expression
searches used by the keyword matcher only ever have the shape
"word-boundary, literal, word-boundary" or "words separated by one or
more whitespace characters"; both are embedded directly below.  Word
characters follow Python's `\w` (ASCII letters, digits, underscore;
non-ASCII code points are treated as word characters, which is exact
for every input used in this development).
-/

namespace Batch

/-- Word character for the word-boundary semantics of Python regexes
(ASCII alphanumeric or underscore; non-ASCII treated as a word
character, matching Python's unicode `\w` on the letters that occur
here). -/
def is_word_char (c : Char) : Bool :=
  c.isAlphanum || c = '_' || (0x80 ≤ c.toNat)

/-- Whitespace for Python's regex class `\s` (ASCII part). -/
def is_space_char (c : Char) : Bool :=
  c = ' ' || c = '\t' || c = '\n' || c = '\r' || c = '\x0b' || c = '\x0c'

/-- Is the character at index `i` (if any) a word character. -/
def word_at (text : List Char) (i : Nat) : Bool :=
  match text[i]? with
  | some c => is_word_char c
  | none => false

/-- Python regex word boundary at position `i` of `text`:
the word-character statuses on the two sides of the position differ
(positions outside the text count as non-word). -/
def boundary_at (text : List Char) (i : Nat) : Bool :=
  (if i = 0 then false else word_at text (i - 1)) != word_at text i

/-- Does the literal `lit` occur in `text` starting at index `i`. -/
def slice_at (text lit : List Char) (i : Nat) : Bool :=
  lit.isPrefixOf (text.drop i)

/-- All characters of `text` at indices `j ≤ m < k` are whitespace. -/
def all_space (text : List Char) (j k : Nat) : Bool :=
  (List.range' j (k - j)).all fun m =>
    match text[m]? with
    | some c => is_space_char c
    | none => false

/-- After a word that ended at index `j`, match the remaining words of
a phrase pattern: each further word is separated from the previous one
by one or more whitespace characters, and a word boundary closes the
phrase.  This is the search semantics of the Python patterns
built as word1 \s+ word2 \s+ ... bracketed by word boundaries. -/
def rest_match : List (List Char) → List Char → Nat → Bool
  | [], text, j => boundary_at text j
  | w :: ws, text, j =>
      (List.range (text.length + 1)).any fun k =>
        j < k && all_space text j k && slice_at text w k &&
          rest_match ws text (k + w.length)

/-- Search `text` for a phrase pattern (nonempty list of literal
words, separated by one-or-more-whitespace, bracketed by word
boundaries). -/
def phrase_search (ws : List (List Char)) (text : List Char) : Bool :=
  match ws with
  | [] => false
  | w :: rest =>
      (List.range (text.length + 1)).any fun i =>
        boundary_at text i && slice_at text w i && rest_match rest text (i + w.length)

/-- Search `text` for a word-boundary-bracketed literal, the meaning
of the Python patterns built by escaping a name and surrounding it
with word boundaries. -/
def word_search (lit text : List Char) : Bool :=
  phrase_search [lit] text

/-- Python str.replace, replacing the character `a` by `b`. -/
def py_replace (s : List Char) (a b : Char) : List Char :=
  s.map fun c => if c = a then b else c

/-- Python str.replace replacing the character `a` by the empty string. -/
def py_remove (s : List Char) (a : Char) : List Char :=
  s.filter fun c => c ≠ a

/-- Python str.lower (ASCII; exact for the inputs used here). -/
def lower_str (s : List Char) : List Char :=
  s.map Char.toLower

/-- Python substring containment (the in operator on strings). -/
def substr_in (needle hay : List Char) : Bool :=
  (List.range (hay.length + 1)).any fun i => needle.isPrefixOf (hay.drop i)

/-- Order-preserving duplicate removal keeping first occurrences,
the meaning of Python list(dict.fromkeys(xs)). -/
def dedup_first (l : List (List Char)) : List (List Char) :=
  l.foldl (fun acc x => if x ∈ acc then acc else acc ++ [x]) []

/-- The fixed contextual allow-list of phrase patterns used for the
keyword "go" in _match_keywords (rss_batch_service.py lines 176-191). -/
def go_contexts : List (List (List Char)) :=
  [ [ "golang".toList ],
    [ "go".toList, "programming".toList ],
    [ "go".toList, "language".toList ],
    [ "go".toList, "code".toList ],
    [ "go".toList, "developer".toList ],
    [ "go".toList, "package".toList ],
    [ "go".toList, "module".toList ],
    [ "go".toList, "runtime".toList ],
    [ "go".toList, "goroutine".toList ],
    [ "go".toList, "channel".toList ],
    [ "go".toList, "interface".toList ],
    [ "programming".toList, "in".toList, "go".toList ],
    [ "written".toList, "in".toList, "go".toList ],
    [ "built".toList, "with".toList, "go".toList ] ]

/-- A keyword row (keywords table). -/
structure Keyword where
  keyword_id : Nat
  en_name : List Char
  ko_name : List Char
  is_active : Bool
  deleted : Bool
  deriving DecidableEq

/-- The contextual match for the keyword "go"
(rss_batch_service.py lines 174-198). -/
def go_hit (search_text : List Char) : Bool :=
  go_contexts.any fun p => phrase_search p search_text

/-- Compound-keyword match: names containing a space or hyphen are
tried as the literal form, the hyphen-to-space form and the
hyphen-removed form, deduplicated, each word-boundary bracketed
(rss_batch_service.py lines 201-214). -/
def compound_hit (en search_text : List Char) : Bool :=
  (dedup_first [en, py_replace en '-' ' ', py_remove en '-']).any fun p =>
    word_search p search_text

/-- The variant list for single-word names
(rss_batch_service.py lines 226-233): dot and space removed, dot to
space, space removed, lowercase; variants equal to the name are
dropped and the rest deduplicated. -/
def variant_list (en : List Char) : List (List Char) :=
  dedup_first
    (([py_remove (py_remove en '.') ' ', py_replace en '.' ' ',
       py_remove en ' ', lower_str en]).filter fun v => v ≠ en)

/-- Variant match for single-word non-"go" names
(rss_batch_service.py lines 235-240): a variant longer than two
characters matched with word boundaries. -/
def variant_hit (en search_text : List Char) : Bool :=
  (variant_list en).any fun v => v.length > 2 && word_search v search_text

/-- The English-name part of _match_keywords (rss_batch_service.py
lines 171-240), for the lower-cased name `en` against the lower-cased
search text: the elif chain over the "go" special case, compound
names and guarded single words, followed by the independent variant
check for single-word non-"go" names. -/
def en_hit (en search_text : List Char) : Bool :=
  if en = [] then false
  else
    (if en = "go".toList then go_hit search_text
     else if en.contains ' ' || en.contains '-' then compound_hit en search_text
     else if en.length > 2 then word_search en search_text
     else false)
    ||
    (if en ≠ "go".toList ∧ en.contains ' ' = false ∧ en.contains '-' = false then
       variant_hit en search_text
     else false)

/-- The Korean-name part of _match_keywords (rss_batch_service.py
lines 243-245): plain substring containment against the original
title and content. -/
def ko_hit (kw : Keyword) (title content : List Char) : Bool :=
  if kw.ko_name = [] then false
  else substr_in kw.ko_name title || substr_in kw.ko_name content

/-- Does one keyword match, translated branch by branch from
_match_keywords (rss_batch_service.py lines 161-247).  The search
text is the lower-cased concatenation of title, a space, and
content. -/
def kw_match (kw : Keyword) (title content : List Char) : Bool :=
  en_hit (lower_str kw.en_name) (lower_str (title ++ ' ' :: content)) ||
    ko_hit kw title content

/-- The set of matched keyword identifiers, modelled (up to order) as
a deduplicated list: _match_keywords returns the identifiers of all
keywords for which some branch fires. -/
def match_keywords (title content : List Char) (keywords : List Keyword) : List Nat :=
  ((keywords.filter fun kw => kw_match kw title content).map fun kw => kw.keyword_id).dedup

/-- A candidate post as produced by _parse_feed. -/
structure Candidate where
  title : List Char
  link : List Char
  content : List Char
  published_at : Option Nat
  deriving DecidableEq

/-- A stored post row (posts table).  Timestamps are seconds. -/
structure Post where
  post_id : Nat
  title : List Char
  link : List Char
  link_hash : List Char
  content : List Char
  region : List Char
  published_at : Nat
  deriving DecidableEq

/-- The database state the two scripts operate on.  post_keywords
holds (post_id, keyword_id) pairs; next_post_id models the posts
sequence used for freshly inserted rows. -/
structure DB where
  posts : List Post
  post_keywords : List (Nat × Nat)
  keywords : List Keyword
  next_post_id : Nat
  deriving DecidableEq

/-- The active keywords read by _fetch_active_keywords
(is_active AND deleted_at IS NULL). -/
def active_keywords (db : DB) : List Keyword :=
  db.keywords.filter fun k => k.is_active && !k.deleted

/-- The per-candidate fingerprints.  The fingerprint function `hash`
is a parameter standing for the SHA-256 hex digest of the link
(an external library call); no property of it is assumed. -/
def link_hash_list (hash : List Char → List Char) (posts : List Candidate) : List (List Char) :=
  posts.map fun p => hash p.link

/-- The set (modelled as a deduplicated list) of fingerprints of the
batch that are already present among stored posts: the result of
SELECT link_hash FROM posts WHERE link_hash = ANY(batch). -/
def existing_hashes (hash : List Char → List Char) (db : DB) (posts : List Candidate) :
    List (List Char) :=
  ((db.posts.filter fun q => q.link_hash ∈ link_hash_list hash posts).map
    fun q => q.link_hash).dedup

/-- Bulk INSERT ... ON CONFLICT (link_hash) DO NOTHING: rows are
inserted in order, and a row whose fingerprint already occurs among
stored posts (including rows inserted earlier in the same statement)
is skipped.  A missing published_at falls back to the current time
(NOT NULL handling at rss_batch_service.py line 344). -/
def insert_posts (hash : List Char → List Char) (region : List Char) (now : Nat)
    (db : DB) (posts : List Candidate) : DB :=
  posts.foldl
    (fun d p =>
      let lh := hash p.link
      if d.posts.any fun q => q.link_hash = lh then d
      else
        ⟨d.posts ++ [⟨d.next_post_id, p.title, p.link, lh, p.content, region,
            p.published_at.getD now⟩],
         d.post_keywords, d.keywords, d.next_post_id + 1⟩)
    db

/-- post_data_map lookup: the Python dict maps each fingerprint to the
title/content of the last candidate with that fingerprint. -/
def post_data_lookup (hash : List Char → List Char) (posts : List Candidate)
    (lh : List Char) : Option Candidate :=
  (posts.filter fun p => hash p.link = lh).getLast?

/-- The re-queried rows restricted to fingerprints of this batch that
were not present before the insert (new_post_mappings). -/
def new_mapping_rows (hash : List Char → List Char) (db db1 : DB)
    (posts : List Candidate) : List Post :=
  db1.posts.filter fun q =>
    q.link_hash ∈ link_hash_list hash posts ∧
      q.link_hash ∉ existing_hashes hash db posts

/-- The staged (post_id, keyword_id) association rows for the newly
inserted posts. -/
def pk_values (hash : List Char → List Char) (db db1 : DB) (posts : List Candidate) :
    List (Nat × Nat) :=
  (new_mapping_rows hash db db1 posts).foldl
    (fun acc q =>
      match post_data_lookup hash posts q.link_hash with
      | none => acc
      | some p =>
          acc ++ (match_keywords p.title p.content (active_keywords db)).map
            fun kid => (q.post_id, kid))
    []

/-- INSERT INTO post_keywords ... ON CONFLICT DO NOTHING. -/
def insert_post_keywords (db : DB) (values : List (Nat × Nat)) : DB :=
  values.foldl
    (fun d pr =>
      if pr ∈ d.post_keywords then d
      else ⟨d.posts, d.post_keywords ++ [pr], d.keywords, d.next_post_id⟩)
    db

/-- _save_posts_and_mappings (rss_batch_service.py lines 324-428):
returns the updated database together with (new_count,
duplicate_count).  duplicate_count is the number of distinct batch
fingerprints already stored; new_count is the batch length minus
that. -/
def save_posts_and_mappings (hash : List Char → List Char) (db : DB)
    (posts : List Candidate) (region : List Char) (now : Nat) : DB × Nat × Nat :=
  if posts = [] then (db, 0, 0)
  else
    let duplicate_count := (existing_hashes hash db posts).length
    let new_count := (link_hash_list hash posts).length - duplicate_count
    let db1 := insert_posts hash region now db posts
    let db2 := insert_post_keywords db1 (pk_values hash db db1 posts)
    (db2, new_count, duplicate_count)

end Batch

namespace CleanUp

open Batch

/-- SQL_FIND_POSTS_WITHOUT_ACTIVE_KEYWORDS
(clean_up_old_posts.py lines 49-55): posts INNER JOIN post_keywords,
LEFT JOIN keywords restricted to is_active = TRUE, keeping the rows
where the joined keyword is NULL, DISTINCT on post_id.  Note the
selection is per association row: a post is selected as soon as one
of its associations points at a keyword that is not active. -/
def find_posts_without_active_keywords (db : DB) : List Nat :=
  ((db.post_keywords.filter fun pk =>
      (db.posts.any fun p => p.post_id = pk.1) &&
        !(db.keywords.any fun k => k.keyword_id = pk.2 && k.is_active)).map
    fun pk => pk.1).dedup

/-- The inactive-only cleanup pass (clean_up_old_posts.py lines
167-193): for every selected post, delete all of its association rows
and then the post itself. -/
def inactive_cleanup (db : DB) : DB :=
  (find_posts_without_active_keywords db).foldl
    (fun d pid =>
      ⟨d.posts.filter fun p => p.post_id ≠ pid,
       d.post_keywords.filter fun r => r.1 ≠ pid,
       d.keywords, d.next_post_id⟩)
    db

/-- The joined rows of SQL_FIND_OLD_POSTS before ordering: post rows
reached from association rows of keyword `k` (INNER JOIN posts).
Stored posts are keyed by post_id, so find? models the join. -/
def assoc_rows (db : DB) (k : Nat) : List Post :=
  (db.post_keywords.filter fun pk => pk.2 = k).filterMap
    fun pk => db.posts.find? fun p => p.post_id = pk.1

/-- Comparison used by ORDER BY published_at DESC. -/
def post_ge (a b : Post) : Prop :=
  b.published_at ≤ a.published_at

instance : DecidableRel post_ge := fun a b =>
  inferInstanceAs (Decidable (b.published_at ≤ a.published_at))

instance : IsTotal Post post_ge :=
  ⟨fun a b => Nat.le_total b.published_at a.published_at⟩

instance : IsTrans Post post_ge :=
  ⟨fun _ _ _ h1 h2 => Nat.le_trans h2 h1⟩

/-- SQL_FIND_OLD_POSTS (clean_up_old_posts.py lines 23-30): the
associated posts of keyword `k` ordered by published time descending,
with the first 30 rows skipped (OFFSET 30); only post_id is
selected. -/
def find_old_posts (db : DB) (k : Nat) : List Nat :=
  ((List.insertionSort post_ge (assoc_rows db k)).drop 30).map fun p => p.post_id

/-- The body of the per-overflow-post loop of the cap pass
(clean_up_old_posts.py lines 129-141): delete the association of
`pid` to keyword `k`, re-count the remaining associations of `pid`,
and delete the post when none remain, updating the
(deleted_posts_count, deleted_mappings_count) counters. -/
def cap_step (k : Nat) (s : DB × Nat × Nat) (pid : Nat) : DB × Nat × Nat :=
  let d := s.1
  let pk1 := d.post_keywords.filter fun r => ¬(r.1 = pid ∧ r.2 = k)
  let cnt := (pk1.filter fun r => r.1 = pid).length
  if cnt = 0 then
    (⟨d.posts.filter fun p => p.post_id ≠ pid, pk1, d.keywords, d.next_post_id⟩,
     s.2.1 + 1, s.2.2 + 1)
  else
    (⟨d.posts, pk1, d.keywords, d.next_post_id⟩, s.2.1, s.2.2 + 1)

/-- One iteration of the cap pass for keyword `k`
(clean_up_old_posts.py lines 105-146): for each overflow post, delete
its association to this keyword, then delete the post itself when no
association remains.  Returns the state together with
(deleted_posts_count, deleted_mappings_count). -/
def cap_keyword (db : DB) (k : Nat) : DB × Nat × Nat :=
  (find_old_posts db k).foldl (cap_step k) (db, 0, 0)

end CleanUp

namespace Orchestrator

open Batch

/-- One configured active feed source together with the outcome of
fetching and extracting it.  The Except value models _parse_feed
(network fetch plus extraction), which may raise. -/
structure FeedIn where
  feed_id : Nat
  region : List Char
  feed_url : List Char
  parse_result : Except (List Char) (List Candidate)

/-- One row written to batch_logs. -/
structure BatchLogRow where
  job_type : List Char
  log_level : List Char
  status : List Char
  affected_count : Nat
  error_message : Option (List Char)
  deriving DecidableEq

/-- The accumulated state of RssBatchService.run: database, run
counters, the batch_logs rows written so far, and the feed ids whose
last_crawled_at was touched (in order). -/
structure RunState where
  db : DB
  success_count : Nat
  fail_count : Nat
  total_new : Nat
  total_duplicate : Nat
  logs : List BatchLogRow
  touched : List Nat

/-- _process_feed (rss_batch_service.py lines 299-322): parse and save
inside a try block; any exception is caught and turned into a FAILED
log row with the error text truncated to 1000 characters, leaving the
counts at (0, 0); the finally block always writes the log row and
touches last_crawled_at.  The function itself never raises (the
logging and touch database writes are modelled as succeeding). -/
def process_feed (hash : List Char → List Char) (now : Nat) (st : RunState)
    (f : FeedIn) : RunState × Nat × Nat :=
  match f.parse_result with
  | Except.ok posts =>
      let r := save_posts_and_mappings hash st.db posts f.region now
      ({ st with
          db := r.1,
          logs := st.logs ++ [⟨ "RSS_CRAWLER".toList, "INFO".toList, "SUCCESS".toList,
            posts.length, none⟩],
          touched := st.touched ++ [f.feed_id] },
       r.2.1, r.2.2)
  | Except.error e =>
      ({ st with
          logs := st.logs ++ [⟨ "RSS_CRAWLER".toList, "ERROR".toList, "FAILED".toList,
            0, some (e.take 1000)⟩],
          touched := st.touched ++ [f.feed_id] },
       0, 0)

/-- RssBatchService.run (rss_batch_service.py lines 273-297): iterate
the active feeds, calling _process_feed on each; since _process_feed
catches every exception internally, the call returns normally for
every source, so the success counter is incremented for every source
and the except branch incrementing fail_count is reached only if the
log/touch database writes raise (modelled as not happening). -/
def run_ingestion (hash : List Char → List Char) (now : Nat) (db : DB)
    (feeds : List FeedIn) : RunState :=
  feeds.foldl
    (fun st f =>
      let r := process_feed hash now st f
      { r.1 with
          success_count := r.1.success_count + 1,
          total_new := r.1.total_new + r.2.1,
          total_duplicate := r.1.total_duplicate + r.2.2 })
    ⟨db, 0, 0, 0, 0, [], []⟩

end Orchestrator

namespace Extractor

open Batch

/-- One item of a feed entry's content list: it may carry a value
attribute, be a plain string, or be neither. -/
inductive ContentBlock where
  | valued (v : List Char)
  | plain (s : List Char)
  | other
  deriving DecidableEq

/-- The content attribute of a feed entry: a list of blocks or a
plain string. -/
inductive EntryContent where
  | items (l : List ContentBlock)
  | strval (s : List Char)
  deriving DecidableEq

/-- A parsed feed entry as seen by _parse_feed.  The two *_parsed
fields carry the already-converted timestamp in seconds; a missing
field or a failing datetime conversion are both `none` (the
conversion is wrapped in try/except that falls back to None). -/
structure Entry where
  published_parsed : Option Nat
  updated_parsed : Option Nat
  title : Option (List Char)
  link : Option (List Char)
  summary : Option (List Char)
  description : Option (List Char)
  content : Option EntryContent
  deriving DecidableEq

/-- Python truthiness of the content attribute: None, an empty list
and an empty string are falsy. -/
def content_truthy : Option EntryContent → Bool
  | none => false
  | some (EntryContent.items l) => l ≠ []
  | some (EntryContent.strval s) => s ≠ []

/-- First usable block of a content list: the first item with a value
attribute or that is a plain string (rss_batch_service.py lines
97-105). -/
def first_block : List ContentBlock → Option (List Char)
  | [] => none
  | ContentBlock.valued v :: _ => some v
  | ContentBlock.plain s :: _ => some s
  | ContentBlock.other :: rest => first_block rest

/-- Content selection (rss_batch_service.py lines 90-107):
entry.summary if truthy, else entry.description if truthy, else the
content attribute. -/
def resolve_content (e : Entry) : Option (List Char) :=
  if (e.summary.getD []) ≠ [] then e.summary
  else if (e.description.getD []) ≠ [] then e.description
  else if content_truthy e.content then
    match e.content with
    | some (EntryContent.items l) => first_block l
    | some (EntryContent.strval s) => some s
    | none => none
  else none

/-- _clean_text (rss_batch_service.py lines 41-54) parameterised by
the HTML text extraction (_extract_text_from_html delegates to the
external BeautifulSoup library, so it enters the model as a
parameter): absent or empty input gives the empty string; input
containing an angle-bracket tag pattern goes through the HTML
extraction; otherwise whitespace is collapsed. -/
def has_tag_pattern (s : List Char) : Bool :=
  (List.range s.length).any fun i =>
    (s[i]? = some '<') &&
      ((List.range (s.length - i)).any fun d =>
        2 ≤ d && (s[i + d]? = some '>') &&
          ((List.range' (i + 1) (d - 1)).all fun m => !(s[m]? = some '>')))

/-- Python str.split() on whitespace, dropping empty pieces. -/
def py_split (s : List Char) : List (List Char) :=
  (s.splitOnP fun c => c.isWhitespace).filter fun w => w ≠ []

/-- The whitespace-collapsing branch: a single space joined over
str.split(). -/
def collapse_ws (s : List Char) : List Char :=
  List.intercalate [' '] (py_split s)

/-- _clean_text with the HTML extraction passed in. -/
def clean_text (extract_html : List Char → List Char) :
    Option (List Char) → List Char
  | none => []
  | some s =>
      if s = [] then []
      else if has_tag_pattern s then extract_html s
      else collapse_ws s

/-- _parse_feed (rss_batch_service.py lines 57-119): at most
max_items entries in document order; entries whose timestamp is
missing or older than 365 days before the run are skipped; the rest
become candidates with normalized title and content.  Time is in
seconds, so the one-year cutoff is now - 365 * 86400. -/
def parse_feed (extract_html : List Char → List Char) (now max_items : Nat)
    (entries : List Entry) : List Candidate :=
  let one_year_ago := now - 365 * 86400
  (entries.take max_items).filterMap fun e =>
    match e.published_parsed.orElse (fun _ => e.updated_parsed) with
    | none => none
    | some t =>
        if t < one_year_ago then none
        else
          some ⟨clean_text extract_html (some (e.title.getD [])),
                e.link.getD [],
                clean_text extract_html (some ((resolve_content e).getD [])),
                some t⟩

end Extractor


namespace Batch

/-- A duplicate-free list included in another list is no longer than it. -/
theorem nodup_length_le_of_subset {α : Type} [DecidableEq α] {l1 l2 : List α}
    (h1 : l1.Nodup) (h : l1 ⊆ l2) : l1.length ≤ l2.length := by
  have e1 : l1.toFinset.card = l1.length := by
    rw [List.card_toFinset, List.dedup_eq_self.mpr h1]
  have hsub : l1.toFinset ⊆ l2.toFinset := by
    intro x hx
    rw [List.mem_toFinset] at hx ⊢
    exact h hx
  calc l1.length = l1.toFinset.card := e1.symm
    _ ≤ l2.toFinset.card := Finset.card_le_card hsub
    _ ≤ l2.length := List.toFinset_card_le l2

/-- Two duplicate-free lists with the same members have the same length. -/
theorem nodup_length_eq_of_mem_iff {α : Type} [DecidableEq α] {l1 l2 : List α}
    (h1 : l1.Nodup) (h2 : l2.Nodup) (hm : ∀ x, x ∈ l1 ↔ x ∈ l2) :
    l1.length = l2.length :=
  Nat.le_antisymm (nodup_length_le_of_subset h1 fun x hx => (hm x).1 hx)
    (nodup_length_le_of_subset h2 fun x hx => (hm x).2 hx)

/-- Every fingerprint reported as existing belongs to the batch. -/
theorem existing_hashes_subset (hash : List Char → List Char) (db : DB)
    (posts : List Candidate) :
    existing_hashes hash db posts ⊆ link_hash_list hash posts := by
  intro x hx
  rw [existing_hashes, List.mem_dedup] at hx
  obtain ⟨q, hq, rfl⟩ := List.mem_map.1 hx
  have := (List.mem_filter.1 hq).2
  simpa using this

/-- The duplicate count never exceeds the batch size. -/
theorem existing_hashes_length_le (hash : List Char → List Char) (db : DB)
    (posts : List Candidate) :
    (existing_hashes hash db posts).length ≤ (link_hash_list hash posts).length :=
  nodup_length_le_of_subset (List.nodup_dedup _) (existing_hashes_subset hash db posts)

/-- C1: for every batch of candidate posts and every prior database
state, _save_posts_and_mappings returns (new_count, duplicate_count)
with new_count + duplicate_count equal to the number of candidates in
the batch, and the empty batch returns (0, 0) leaving the state
unchanged. -/
theorem c1_counts_sum (hash : List Char → List Char) (db : DB) (posts : List Candidate)
    (region : List Char) (now : Nat) :
    (save_posts_and_mappings hash db posts region now).2.1 +
        (save_posts_and_mappings hash db posts region now).2.2 = posts.length ∧
      save_posts_and_mappings hash db [] region now = (db, 0, 0) := by
  constructor
  · by_cases hp : posts = []
    · subst hp
      simp [save_posts_and_mappings]
    · have hle := existing_hashes_length_le hash db posts
      have hlen : (link_hash_list hash posts).length = posts.length := by
        simp [link_hash_list]
      simp only [save_posts_and_mappings, if_neg hp]
      omega
  · rfl

end Batch

namespace Batch

/-- Inserting association rows never changes the stored posts. -/
theorem insert_post_keywords_posts (db : DB) (values : List (Nat × Nat)) :
    (insert_post_keywords db values).posts = db.posts := by
  induction values generalizing db with
  | nil => rfl
  | cons v vs ih =>
      rw [insert_post_keywords]
      simp only [List.foldl_cons]
      by_cases hv : v ∈ db.post_keywords
      · rw [if_pos hv]
        exact ih db
      · rw [if_neg hv]
        exact ih _

/-- A batch whose fingerprints are all already stored inserts
nothing. -/
theorem insert_posts_stable (hash : List Char → List Char) (region : List Char)
    (now : Nat) (db : DB) (posts : List Candidate)
    (h : ∀ p ∈ posts, ∃ q ∈ db.posts, q.link_hash = hash p.link) :
    insert_posts hash region now db posts = db := by
  induction posts with
  | nil => rfl
  | cons p ps ih =>
      rw [insert_posts, List.foldl_cons]
      have hc : (db.posts.any fun q => q.link_hash = hash p.link) = true := by
        obtain ⟨q, hq, hqe⟩ := h p (List.mem_cons_self p ps)
        exact List.any_eq_true.mpr ⟨q, hq, by simp [hqe]⟩
      rw [if_pos hc]
      exact ih fun p' hp' => h p' (List.mem_cons_of_mem p hp')

/-- Hash function used in the concrete examples (standing in for the
SHA-256 hex digest; nothing relies on its shape). -/
def id_hash : List Char → List Char := fun l => l

/-- An empty database. -/
def empty_db : DB := ⟨[], [], [], 0⟩

/-- A sample candidate post with link "http://a". -/
def cand_a : Candidate := ⟨ "t1".toList, "http://a".toList, [], some 100⟩

/-- C2 counterexample: saving a batch of two candidates with the same
link into an empty database returns new_count = 2 and
duplicate_count = 0 (not 1 and 1 as claimed), although only one Post
row results. -/
theorem c2_intra_batch_counterexample :
    (save_posts_and_mappings id_hash empty_db [cand_a, cand_a] ( "kr".toList ) 5).2.1 = 2 ∧
      (save_posts_and_mappings id_hash empty_db [cand_a, cand_a] ( "kr".toList ) 5).2.2 = 0 ∧
      (save_posts_and_mappings id_hash empty_db [cand_a, cand_a]
          ( "kr".toList ) 5).1.posts.length = 1 := by
  decide

/-- C2 amended: for a batch of two candidate posts with the same link
(hence equal fingerprints), neither already stored, the save counts
both occurrences as new (new_count = 2, duplicate_count = 0, since
duplicates are detected only against previously stored fingerprints),
and exactly one Post row results from the insert. -/
theorem c2_intra_batch_amended (hash : List Char → List Char) (db : DB)
    (ca cb : Candidate) (region : List Char) (now : Nat)
    (hlink : ca.link = cb.link)
    (hnew : ∀ q ∈ db.posts, q.link_hash ≠ hash ca.link) :
    (save_posts_and_mappings hash db [ca, cb] region now).2.1 = 2 ∧
      (save_posts_and_mappings hash db [ca, cb] region now).2.2 = 0 ∧
      (save_posts_and_mappings hash db [ca, cb] region now).1.posts.length =
        db.posts.length + 1 := by
  have hm : ∀ q ∈ db.posts, ¬ q.link_hash ∈ link_hash_list hash [ca, cb] := by
    intro q hq hmem
    simp only [link_hash_list, List.map_cons, List.map_nil, List.mem_cons,
      List.not_mem_nil, or_false, ← hlink] at hmem
    rcases hmem with h | h
    · exact hnew q hq h
    · exact hnew q hq h
  have hex : existing_hashes hash db [ca, cb] = [] := by
    rw [List.eq_nil_iff_forall_not_mem]
    intro x hx
    rw [existing_hashes, List.mem_dedup] at hx
    obtain ⟨q, hq, rfl⟩ := List.mem_map.1 hx
    have hqm := List.mem_filter.1 hq
    exact hm q hqm.1 (by simpa using hqm.2)
  rw [save_posts_and_mappings, if_neg (by simp)]
  refine ⟨?_, ?_, ?_⟩
  · show (link_hash_list hash [ca, cb]).length - (existing_hashes hash db [ca, cb]).length = 2
    rw [hex]
    rfl
  · show (existing_hashes hash db [ca, cb]).length = 0
    rw [hex]
    rfl
  · show (insert_post_keywords _ _).posts.length = _
    rw [insert_post_keywords_posts]
    have h1 : ¬ (db.posts.any fun q => q.link_hash = hash ca.link) = true := by
      rw [List.any_eq_true]
      rintro ⟨q, hq, hqe⟩
      exact hnew q hq (by simpa using hqe)
    rw [insert_posts]
    simp only [List.foldl_cons, List.foldl_nil]
    rw [if_neg h1]
    have h2 : ((db.posts ++
        [(⟨db.next_post_id, ca.title, ca.link, hash ca.link, ca.content, region,
          ca.published_at.getD now⟩ : Post)]).any fun q => q.link_hash = hash cb.link) = true := by
      have hmem : (⟨db.next_post_id, ca.title, ca.link, hash ca.link, ca.content, region,
          ca.published_at.getD now⟩ : Post) ∈ db.posts ++
            [(⟨db.next_post_id, ca.title, ca.link, hash ca.link, ca.content, region,
              ca.published_at.getD now⟩ : Post)] :=
        List.mem_append_right _ (List.mem_singleton_self _)
      rw [List.any_eq_true]
      refine ⟨_, hmem, ?_⟩
      simp [hlink]
    rw [if_pos h2]
    simp

/-- Concrete witness data for the amended C2 theorem. -/
def cand_a2 : Candidate := ⟨ "t2".toList, "http://a".toList, [], some 101⟩

/-- C2 witness: the amended statement evaluated on two concrete
same-link candidates against the empty database. -/
theorem c2_intra_batch_amended_witness :
    cand_a.link = cand_a2.link ∧
      (∀ q ∈ empty_db.posts, q.link_hash ≠ id_hash cand_a.link) ∧
      ((save_posts_and_mappings id_hash empty_db [cand_a, cand_a2] ( "kr".toList ) 7).2.1 = 2 ∧
        (save_posts_and_mappings id_hash empty_db [cand_a, cand_a2] ( "kr".toList ) 7).2.2 = 0 ∧
        (save_posts_and_mappings id_hash empty_db [cand_a, cand_a2]
            ( "kr".toList ) 7).1.posts.length = empty_db.posts.length + 1) :=
  ⟨rfl, by decide,
    c2_intra_batch_amended id_hash empty_db cand_a cand_a2 ( "kr".toList ) 7 rfl (by decide)⟩

end Batch

namespace Batch

/-- The database produced by saving the duplicate-link batch once. -/
def dup_db : DB :=
  (save_posts_and_mappings id_hash empty_db [cand_a, cand_a] ( "kr".toList ) 5).1

/-- C3 counterexample: re-running the save with the identical
duplicate-link batch returns (1, 1), not (0, batchSize) = (0, 2),
although it does insert nothing. -/
theorem c3_retry_counterexample :
    (save_posts_and_mappings id_hash dup_db [cand_a, cand_a] ( "kr".toList ) 5).2.1 = 1 ∧
      (save_posts_and_mappings id_hash dup_db [cand_a, cand_a] ( "kr".toList ) 5).2.2 = 1 ∧
      (save_posts_and_mappings id_hash dup_db [cand_a, cand_a] ( "kr".toList ) 5).1 = dup_db ∧
      ¬((save_posts_and_mappings id_hash dup_db [cand_a, cand_a] ( "kr".toList ) 5).2.1 = 0 ∧
        (save_posts_and_mappings id_hash dup_db [cand_a, cand_a]
            ( "kr".toList ) 5).2.2 = 2) := by
  decide

/-- C3 amended: saving a batch whose fingerprints are pairwise
distinct and all already persisted returns new_count = 0 and
duplicate_count = batch size, and leaves the database entirely
unchanged (no new Post or PostKeyword rows); without the
distinctness hypothesis the state is still unchanged but the counts
partition against the number of distinct fingerprints, as the
counterexample shows. -/
theorem c3_idempotent_amended (hash : List Char → List Char) (db : DB)
    (posts : List Candidate) (region : List Char) (now : Nat)
    (hnd : (link_hash_list hash posts).Nodup)
    (hstored : ∀ p ∈ posts, ∃ q ∈ db.posts, q.link_hash = hash p.link) :
    (save_posts_and_mappings hash db posts region now).2.1 = 0 ∧
      (save_posts_and_mappings hash db posts region now).2.2 = posts.length ∧
      (save_posts_and_mappings hash db posts region now).1 = db := by
  by_cases hp : posts = []
  · subst hp
    simp [save_posts_and_mappings]
  · have hexm : ∀ x, x ∈ existing_hashes hash db posts ↔ x ∈ link_hash_list hash posts := by
      intro x
      constructor
      · exact fun hx => existing_hashes_subset hash db posts hx
      · intro hx
        obtain ⟨p, hpmem, rfl⟩ := List.mem_map.1 hx
        obtain ⟨q, hq, hqe⟩ := hstored p hpmem
        rw [existing_hashes, List.mem_dedup]
        refine List.mem_map.2 ⟨q, List.mem_filter.2 ⟨hq, ?_⟩, hqe⟩
        simp only [decide_eq_true_eq]
        rw [hqe]
        exact List.mem_map.2 ⟨p, hpmem, rfl⟩
    have hlen : (existing_hashes hash db posts).length = (link_hash_list hash posts).length :=
      nodup_length_eq_of_mem_iff (List.nodup_dedup _) hnd hexm
    have hins : insert_posts hash region now db posts = db :=
      insert_posts_stable hash region now db posts hstored
    have hrows : new_mapping_rows hash db (insert_posts hash region now db posts) posts = [] := by
      rw [hins, new_mapping_rows, List.eq_nil_iff_forall_not_mem]
      intro q hq
      have hq2 := List.mem_filter.1 hq
      have := hq2.2
      simp only [decide_eq_true_eq] at this
      exact this.2 ((hexm q.link_hash).2 this.1)
    have hvals : pk_values hash db (insert_posts hash region now db posts) posts = [] := by
      rw [pk_values, hrows]
      rfl
    rw [save_posts_and_mappings, if_neg hp]
    refine ⟨?_, ?_, ?_⟩
    · show (link_hash_list hash posts).length - (existing_hashes hash db posts).length = 0
      rw [hlen, Nat.sub_self]
    · show (existing_hashes hash db posts).length = posts.length
      rw [hlen, link_hash_list, List.length_map]
    · show insert_post_keywords (insert_posts hash region now db posts)
          (pk_values hash db (insert_posts hash region now db posts) posts) = db
      rw [hvals]
      exact hins

/-- A database already holding the post with link "http://a". -/
def one_db : DB :=
  ⟨[⟨0, "t1".toList, "http://a".toList, "http://a".toList, [], "kr".toList, 100⟩],
   [], [], 1⟩

/-- C3 witness: the amended statement evaluated on a concrete
single-candidate batch whose post is already persisted. -/
theorem c3_idempotent_amended_witness :
    (link_hash_list id_hash [cand_a]).Nodup ∧
      (∀ p ∈ [cand_a], ∃ q ∈ one_db.posts, q.link_hash = id_hash p.link) ∧
      ((save_posts_and_mappings id_hash one_db [cand_a] ( "kr".toList ) 5).2.1 = 0 ∧
        (save_posts_and_mappings id_hash one_db [cand_a] ( "kr".toList ) 5).2.2 = 1 ∧
        (save_posts_and_mappings id_hash one_db [cand_a] ( "kr".toList ) 5).1 = one_db) :=
  ⟨by decide, by decide,
    c3_idempotent_amended id_hash one_db [cand_a] ( "kr".toList ) 5 (by decide) (by decide)⟩

end Batch

namespace CleanUp

open Batch

/-- A post (id 1) associated with both the active keyword 10 and the
inactive keyword 20. -/
def mixed_db : DB :=
  ⟨[⟨1, "p".toList, [], [], [], [], 0⟩],
   [(1, 10), (1, 20)],
   [⟨10, "aa".toList, [], true, false⟩, ⟨20, "bb".toList, [], false, false⟩],
   2⟩

/-- C4 code-bug evaluation: post 1 has an association to the active
keyword 10, yet SQL_FIND_POSTS_WITHOUT_ACTIVE_KEYWORDS selects it
(through its other association row, to the inactive keyword 20), and
the inactive-only cleanup pass deletes it together with all of its
associations — contradicting both the claim and the code's own
comment that only posts mapped exclusively to inactive keywords are
removed.  A post whose sole association is to an active keyword is
not selected. -/
theorem c4_inactive_cleanup_bug :
    ((1, 10) ∈ mixed_db.post_keywords ∧
        (∃ k ∈ mixed_db.keywords, k.keyword_id = 10 ∧ k.is_active = true)) ∧
      find_posts_without_active_keywords mixed_db = [1] ∧
      (inactive_cleanup mixed_db).posts = [] ∧
      (inactive_cleanup mixed_db).post_keywords = [] ∧
      find_posts_without_active_keywords
        ⟨mixed_db.posts, [(1, 10)], mixed_db.keywords, 2⟩ = [] := by
  decide

end CleanUp

namespace Batch

/-- The keyword of the C6 example. -/
def kw_nextjs : Keyword := ⟨7, "Next js".toList, [], true, false⟩

/-- C6 counterexample: the matcher does not include keyword
"Next js" for the search text "Building with Next.js": the only
pattern generated for a space-separated name is its literal form, and
"next js" does not occur in "building with next.js". -/
theorem c6_nextjs_counterexample :
    kw_match kw_nextjs ( "Building with Next.js".toList ) [] = false ∧
      match_keywords ( "Building with Next.js".toList ) [] [kw_nextjs] = [] := by
  decide

/-- C6 amended: the matcher does not match "Building with Next.js"
against the name "Next js" (for a purely space-separated name all
three generated forms coincide with the literal form); it does match
when the text contains "Next js" literally, and hyphenated names are
indeed tried in the literal, hyphen-to-space and hyphen-removed
whole-word forms, as the "On-device AI" examples show. -/
theorem c6_nextjs_amended :
    match_keywords ( "Building with Next.js".toList ) [] [kw_nextjs] = [] ∧
      match_keywords ( "Building with Next js".toList ) [] [kw_nextjs] = [7] ∧
      kw_match ⟨3, "On-device AI".toList, [], true, false⟩
          ( "new on-device ai stuff".toList ) [] = true ∧
      kw_match ⟨3, "On-device AI".toList, [], true, false⟩
          ( "new on device ai stuff".toList ) [] = true ∧
      kw_match ⟨3, "On-device AI".toList, [], true, false⟩
          ( "new ondevice ai stuff".toList ) [] = true := by
  decide

end Batch

namespace Orchestrator

open Batch

/-- A feed source whose fetch/extract step raises. -/
def feed_bad : FeedIn := ⟨1, "kr".toList, "u1".toList, Except.error ( "boom".toList )⟩

/-- A healthy feed source with one candidate post. -/
def feed_good : FeedIn := ⟨2, "kr".toList, "u2".toList, Except.ok [cand_a]⟩

/-- C9 code-bug evaluation: when the first source's fetch raises, the
run still logs that source as FAILED with the error text, still
touches it (last-crawled update), still processes the second source
and emits exactly one summary — but the summary counts the failed
source as a success: success_count = 2 and fail_count = 0, because
_process_feed catches every exception internally and returns
normally, so the fail branch of run is never reached. -/
theorem c9_orchestrator_bug :
    (run_ingestion id_hash 5 empty_db [feed_bad, feed_good]).logs =
        [⟨ "RSS_CRAWLER".toList, "ERROR".toList, "FAILED".toList, 0, some ( "boom".toList )⟩,
         ⟨ "RSS_CRAWLER".toList, "INFO".toList, "SUCCESS".toList, 1, none⟩] ∧
      (run_ingestion id_hash 5 empty_db [feed_bad, feed_good]).touched = [1, 2] ∧
      (run_ingestion id_hash 5 empty_db [feed_bad, feed_good]).total_new = 1 ∧
      (run_ingestion id_hash 5 empty_db [feed_bad, feed_good]).success_count = 2 ∧
      (run_ingestion id_hash 5 empty_db [feed_bad, feed_good]).fail_count = 0 := by
  decide

end Orchestrator

namespace Extractor

open Batch

/-- C10: every candidate returned by _parse_feed carries a present
published timestamp that is at least now - 365 days, so the
persistence fallback that substitutes the current time for a missing
timestamp is never exercised on extractor output (the getD default is
irrelevant). -/
theorem c10_extractor_published (extract_html : List Char → List Char)
    (now max_items : Nat) (entries : List Entry) :
    ∀ c ∈ parse_feed extract_html now max_items entries,
      ∃ t, c.published_at = some t ∧ now - 365 * 86400 ≤ t ∧
        ∀ fallback, c.published_at.getD fallback = t := by
  intro c hc
  rw [parse_feed] at hc
  obtain ⟨e, _, hfe⟩ := List.mem_filterMap.1 hc
  rcases hor : e.published_parsed.orElse fun _ => e.updated_parsed with _ | t
  · rw [hor] at hfe
    exact absurd hfe (by simp)
  · rw [hor] at hfe
    have hfe2 : (if t < now - 365 * 86400 then (none : Option Candidate)
        else some ⟨clean_text extract_html (some (e.title.getD [])), e.link.getD [],
          clean_text extract_html (some ((resolve_content e).getD [])), some t⟩) =
        some c := hfe
    by_cases ht : t < now - 365 * 86400
    · rw [if_pos ht] at hfe2
      exact absurd hfe2 (by simp)
    · rw [if_neg ht] at hfe2
      have hc2 := Option.some.inj hfe2
      refine ⟨t, ?_, Nat.le_of_not_lt ht, ?_⟩
      · rw [← hc2]
      · intro fallback
        rw [← hc2]
        rfl

/-- A concrete feed entry published at time 40000000. -/
def ent_ok : Entry :=
  ⟨some 40000000, none, some ( "Hi".toList ), some ( "l".toList ), none, none, none⟩

/-- The candidate _parse_feed produces from ent_ok. -/
def cand_ok : Candidate := ⟨ "Hi".toList, "l".toList, [], some 40000000⟩

/-- C10 witness: the theorem applied to a concrete entry list. -/
theorem c10_extractor_published_witness :
    cand_ok ∈ parse_feed id_hash 40000005 50 [ent_ok] ∧
      (∃ t, cand_ok.published_at = some t ∧ 40000005 - 365 * 86400 ≤ t ∧
        ∀ fallback, cand_ok.published_at.getD fallback = t) :=
  ⟨by decide,
    c10_extractor_published id_hash 40000005 50 [ent_ok] cand_ok (by decide)⟩

end Extractor

namespace Batch

/-- Membership in the deduplicated list implies membership in the
original. -/
theorem mem_dedup_first_sub {l : List (List Char)} {x : List Char}
    (hx : x ∈ dedup_first l) : x ∈ l := by
  have key : ∀ (l acc : List (List Char)),
      x ∈ l.foldl (fun acc x => if x ∈ acc then acc else acc ++ [x]) acc →
        x ∈ acc ∨ x ∈ l := by
    intro l
    induction l with
    | nil => exact fun acc h => Or.inl h
    | cons y ys ih =>
        intro acc h
        rw [List.foldl_cons] at h
        rcases ih _ h with h2 | h2
        · by_cases hy : y ∈ acc
          · rw [if_pos hy] at h2
            exact Or.inl h2
          · rw [if_neg hy] at h2
            rcases List.mem_append.1 h2 with h3 | h3
            · exact Or.inl h3
            · exact Or.inr (List.mem_cons.2 (Or.inl (List.mem_singleton.1 h3)))
        · exact Or.inr (List.mem_cons_of_mem y h2)
  rcases key l [] hx with h | h
  · exact absurd h (List.not_mem_nil x)
  · exact h

/-- Every variant of a name is at most as long as the name: the
variants only delete characters or replace them one for one. -/
theorem variant_list_length_le {en v : List Char} (hv : v ∈ variant_list en) :
    v.length ≤ en.length := by
  have h1 := mem_dedup_first_sub hv
  have h2 := (List.mem_filter.1 h1).1
  simp only [List.mem_cons, List.not_mem_nil, or_false] at h2
  rcases h2 with rfl | rfl | rfl | rfl
  · calc (py_remove (py_remove en '.') ' ').length
        ≤ (py_remove en '.').length := List.length_filter_le _ _
      _ ≤ en.length := List.length_filter_le _ _
  · exact le_of_eq (List.length_map _ _)
  · exact List.length_filter_le _ _
  · exact le_of_eq (List.length_map _ _)

/-- A name of length at most two has no variant longer than two
characters, so its variant check never fires. -/
theorem variant_hit_eq_false {en st : List Char} (hlen : en.length ≤ 2) :
    variant_hit en st = false := by
  rw [variant_hit, List.any_eq_false]
  intro v hv
  have hv2 := variant_list_length_le hv
  have hd : decide (v.length > 2) = false := decide_eq_false (by omega)
  rw [hd, Bool.false_and]
  exact Bool.false_ne_true

/-- The two-character keyword of the C7 counterexample. -/
def kw_cdash : Keyword := ⟨4, "C-".toList, [], true, false⟩

/-- C7 counterexample: the English name "C-" has length 2, is not
"go" and has no Korean match, yet the matcher fires on the bare text
"use c now": the hyphen-containing branch has no length guard, and
the hyphen-removed form "c" matches standalone. -/
theorem c7_short_names_counterexample :
    (lower_str kw_cdash.en_name).length ≤ 2 ∧
      lower_str kw_cdash.en_name ≠ "go".toList ∧
      ko_hit kw_cdash ( "use c now".toList ) [] = false ∧
      kw_match kw_cdash ( "use c now".toList ) [] = true := by
  decide

/-- C7 amended: for every keyword whose lower-cased English name
contains no space and no hyphen, has length at most 2, differs from
"go", and whose Korean name does not match, the matcher never fires
(the single-word branch and all normalized variants are guarded by
the length > 2 check); the name "go" matches exactly when one of the
fixed contextual allow-list patterns matches the search text, so
"I love golang" matches while "lets go shopping" does not. -/
theorem c7_short_names_amended :
    (∀ (kw : Keyword) (title content : List Char),
      (lower_str kw.en_name).contains ' ' = false →
      (lower_str kw.en_name).contains '-' = false →
      (lower_str kw.en_name).length ≤ 2 →
      lower_str kw.en_name ≠ "go".toList →
      ko_hit kw title content = false →
      kw_match kw title content = false) ∧
      (∀ title content : List Char,
        kw_match ⟨5, "Go".toList, [], true, false⟩ title content =
          go_hit (lower_str (title ++ ' ' :: content))) ∧
      kw_match ⟨5, "Go".toList, [], true, false⟩ ( "I love golang".toList ) [] = true ∧
      kw_match ⟨5, "Go".toList, [], true, false⟩ ( "lets go shopping".toList ) [] = false := by
  refine ⟨?_, ?_, by decide, by decide⟩
  · intro kw title content hsp hdash hlen hgo hko
    rw [kw_match, hko, Bool.or_false, en_hit]
    by_cases h0 : lower_str kw.en_name = []
    · rw [if_pos h0]
    · rw [if_neg h0, if_neg hgo, hsp, hdash]
      rw [if_neg (by simp : ¬((false || false) = true))]
      rw [if_neg (by omega : ¬(lower_str kw.en_name).length > 2)]
      rw [if_pos ⟨hgo, rfl, rfl⟩]
      rw [variant_hit_eq_false hlen]
      rfl
  · intro title content
    have he : kw_match ⟨5, "Go".toList, [], true, false⟩ title content =
        (en_hit ( "go".toList ) (lower_str (title ++ ' ' :: content)) || false) := rfl
    rw [he, Bool.or_false]
    simp only [en_hit]
    simp

/-- The single-letter keyword used by the C7 witness. -/
def kw_r : Keyword := ⟨6, "R".toList, [], true, false⟩

/-- C7 witness: the amended universal statement applied to the
single-letter keyword "R" and the text "use r now". -/
theorem c7_short_names_amended_witness :
    ((lower_str kw_r.en_name).contains ' ' = false ∧
        (lower_str kw_r.en_name).contains '-' = false ∧
        (lower_str kw_r.en_name).length ≤ 2 ∧
        lower_str kw_r.en_name ≠ "go".toList ∧
        ko_hit kw_r ( "use r now".toList ) [] = false) ∧
      kw_match kw_r ( "use r now".toList ) [] = false :=
  ⟨⟨by decide, by decide, by decide, by decide, by decide⟩,
    c7_short_names_amended.1 kw_r ( "use r now".toList ) [] (by decide) (by decide)
      (by decide) (by decide) (by decide)⟩

end Batch

namespace CleanUp

open Batch

/-- Deleting the association of `pid` to `k` and then re-counting the
rows of `pid` counts exactly the associations of `pid` to other
keywords. -/
theorem cnt_filter_eq (k pid : Nat) (pk : List (Nat × Nat)) :
    (pk.filter fun r => ¬(r.1 = pid ∧ r.2 = k)).filter (fun r => r.1 = pid) =
      pk.filter fun r => r.1 = pid ∧ r.2 ≠ k := by
  rw [List.filter_filter]
  apply List.filter_congr
  intro r _
  by_cases h1 : r.1 = pid
  · by_cases h2 : r.2 = k
    · simp [h1, h2]
    · simp [h1, h2]
  · simp [h1]

/-- Rows of a post other than `pid` are untouched by deleting the
association of `pid` to `k`. -/
theorem other_len_eq (k pid x : Nat) (pk : List (Nat × Nat)) (hx : x ≠ pid) :
    ((pk.filter fun r => ¬(r.1 = pid ∧ r.2 = k)).filter fun r => r.1 = x ∧ r.2 ≠ k) =
      pk.filter fun r => r.1 = x ∧ r.2 ≠ k := by
  rw [List.filter_filter]
  apply List.filter_congr
  intro r _
  by_cases h1 : r.1 = x
  · simp [h1, hx]
  · simp [h1]
end CleanUp

namespace CleanUp

open Batch

/-- Characterisation of the per-keyword deletion loop: folding
cap_step over a duplicate-free list of overflow post ids removes
exactly the associations of those posts to `k`, and removes exactly
the overflow posts that had no association to another keyword; the
keyword table and id counter are untouched. -/
theorem cap_fold (k : Nat) (old : List Nat) :
    ∀ (s : DB × Nat × Nat), old.Nodup →
      (old.foldl (cap_step k) s).1.posts =
          s.1.posts.filter (fun p => ¬(p.post_id ∈ old ∧
            (s.1.post_keywords.filter fun r => r.1 = p.post_id ∧ r.2 ≠ k).length = 0)) ∧
        (old.foldl (cap_step k) s).1.post_keywords =
          s.1.post_keywords.filter (fun r => ¬(r.1 ∈ old ∧ r.2 = k)) ∧
        (old.foldl (cap_step k) s).1.keywords = s.1.keywords ∧
        (old.foldl (cap_step k) s).1.next_post_id = s.1.next_post_id := by
  induction old with
  | nil =>
      intro s _
      refine ⟨?_, ?_, rfl, rfl⟩
      · exact (List.filter_eq_self.mpr (by intro p hp; simp)).symm
      · exact (List.filter_eq_self.mpr (by intro r hr; simp)).symm
  | cons pid rest ih =>
      intro s hnd
      have hpid : pid ∉ rest := (List.nodup_cons.1 hnd).1
      have hrest : rest.Nodup := (List.nodup_cons.1 hnd).2
      rw [List.foldl_cons]
      obtain ⟨ihp, ihk, ihw, ihn⟩ := ih (cap_step k s pid) hrest
      have hd1pk : (cap_step k s pid).1.post_keywords =
          s.1.post_keywords.filter (fun r => ¬(r.1 = pid ∧ r.2 = k)) := by
        simp only [cap_step]
        split
        · rfl
        · rfl
      have hd1posts : (cap_step k s pid).1.posts =
          s.1.posts.filter (fun p => ¬(p.post_id = pid ∧
            (s.1.post_keywords.filter fun r => r.1 = p.post_id ∧ r.2 ≠ k).length = 0)) := by
        simp only [cap_step, cnt_filter_eq]
        by_cases hc :
            (s.1.post_keywords.filter fun r => r.1 = pid ∧ r.2 ≠ k).length = 0
        · rw [if_pos hc]
          show s.1.posts.filter _ = _
          apply List.filter_congr
          intro p _
          by_cases h1 : p.post_id = pid
          · rw [h1, hc]
            simp
          · simp [h1]
        · rw [if_neg hc]
          show s.1.posts = _
          refine (List.filter_eq_self.mpr ?_).symm
          intro p _
          by_cases h1 : p.post_id = pid
          · rw [h1, decide_eq_true_eq]
            exact fun h => hc h.2
          · simp [h1]
      have hd1w : (cap_step k s pid).1.keywords = s.1.keywords := by
        simp only [cap_step]
        split
        · rfl
        · rfl
      have hd1n : (cap_step k s pid).1.next_post_id = s.1.next_post_id := by
        simp only [cap_step]
        split
        · rfl
        · rfl
      refine ⟨?_, ?_, by rw [ihw, hd1w], by rw [ihn, hd1n]⟩
      · rw [ihp, hd1posts, hd1pk, List.filter_filter]
        apply List.filter_congr
        intro p _
        by_cases h1 : p.post_id = pid
        · rw [← Bool.decide_and, decide_eq_decide]
          constructor
          · rintro ⟨_, ha⟩ ⟨_, hlen0⟩
            exact ha ⟨h1, hlen0⟩
          · intro hr
            constructor
            · rintro ⟨hmemr, _⟩
              exact hpid (h1 ▸ hmemr)
            · rintro ⟨_, hlen0⟩
              exact hr ⟨List.mem_cons.2 (Or.inl h1), hlen0⟩
        · rw [other_len_eq k pid p.post_id _ h1, ← Bool.decide_and, decide_eq_decide]
          simp only [List.mem_cons]
          constructor
          · rintro ⟨hb, _⟩ ⟨hmem, hlen0⟩
            rcases hmem with he | hmemr
            · exact h1 he
            · exact hb ⟨hmemr, hlen0⟩
          · intro hr
            refine ⟨?_, ?_⟩
            · rintro ⟨hmemr, hlen0⟩
              exact hr ⟨Or.inr hmemr, hlen0⟩
            · rintro ⟨he, _⟩
              exact h1 he
      · rw [ihk, hd1pk, List.filter_filter]
        apply List.filter_congr
        intro r _
        rw [← Bool.decide_and, decide_eq_decide]
        simp only [List.mem_cons]
        constructor
        · rintro ⟨hb, ha⟩ ⟨hmem, hk2⟩
          rcases hmem with he | hmemr
          · exact ha ⟨he, hk2⟩
          · exact hb ⟨hmemr, hk2⟩
        · intro hr
          refine ⟨?_, ?_⟩
          · rintro ⟨hmemr, hk2⟩
            exact hr ⟨Or.inr hmemr, hk2⟩
          · rintro ⟨he, hk2⟩
            exact hr ⟨Or.inl he, hk2⟩

end CleanUp

namespace CleanUp

open Batch

/-- In a list whose published times are strictly decreasing, an
element lies beyond the first `n` positions exactly when at least `n`
elements are strictly newer than it. -/
theorem mem_drop_iff_count :
    ∀ (S : List Post), (S.Pairwise fun a b => b.published_at < a.published_at) →
      ∀ (n : Nat) (p : Post), p ∈ S.drop n ↔
        p ∈ S ∧ n ≤ S.countP fun q => p.published_at < q.published_at := by
  intro S
  induction S with
  | nil =>
      intro _ n p
      simp
  | cons a T ih =>
      intro hp n p
      have ha : ∀ b ∈ T, b.published_at < a.published_at := (List.pairwise_cons.1 hp).1
      have hT := (List.pairwise_cons.1 hp).2
      cases n with
      | zero => simp
      | succ m =>
          rw [List.drop_succ_cons, ih hT m p]
          by_cases hpa : p = a
          · subst hpa
            have hnotT : p ∉ T := fun hmem => absurd (ha p hmem) (lt_irrefl _)
            have hcnt : (p :: T).countP (fun q => decide (p.published_at < q.published_at)) = 0 := by
              rw [List.countP_eq_zero]
              intro q hq
              rcases List.mem_cons.1 hq with rfl | hq2
              · simp
              · simp only [decide_eq_true_eq, not_lt]
                exact le_of_lt (ha q hq2)
            constructor
            · rintro ⟨hmem, _⟩
              exact absurd hmem hnotT
            · rintro ⟨_, hle⟩
              rw [hcnt] at hle
              omega
          · have hdec : ∀ hmem : p ∈ T,
                decide (p.published_at < a.published_at) = true :=
              fun hmem => decide_eq_true (ha p hmem)
            constructor
            · rintro ⟨hmem, hle⟩
              refine ⟨List.mem_cons_of_mem a hmem, ?_⟩
              rw [List.countP_cons, hdec hmem, if_pos rfl]
              omega
            · rintro ⟨hmem, hle⟩
              have hmem2 : p ∈ T := by
                rcases List.mem_cons.1 hmem with h | h
                · exact absurd h hpa
                · exact h
              refine ⟨hmem2, ?_⟩
              rw [List.countP_cons, hdec hmem2, if_pos rfl] at hle
              omega

/-- A list sorted by descending published time whose published times
are duplicate-free is strictly decreasing. -/
theorem sorted_strict {S : List Post} (hs : S.Sorted post_ge)
    (hn : (S.map fun p => p.published_at).Nodup) :
    S.Pairwise fun a b => b.published_at < a.published_at := by
  have h2 : S.Pairwise fun a b => a.published_at ≠ b.published_at :=
    List.pairwise_map.1 hn
  exact (hs.and h2).imp fun h => lt_of_le_of_ne h.1 (Ne.symm h.2)

/-- Mapping post ids over a filterMap whose results carry the first
component of their source row preserves freedom from duplicates. -/
theorem filterMap_fst_nodup {l : List (Nat × Nat)} {g : Nat × Nat → Option Post}
    (hl : (l.map Prod.fst).Nodup) (hg : ∀ r q, g r = some q → q.post_id = r.1) :
    ((l.filterMap g).map fun p => p.post_id).Nodup := by
  induction l with
  | nil => simp
  | cons r rest ih =>
      rw [List.map_cons, List.nodup_cons] at hl
      cases hgr : g r with
      | none =>
          rw [List.filterMap_cons_none hgr]
          exact ih hl.2
      | some q =>
          rw [List.filterMap_cons_some hgr, List.map_cons, List.nodup_cons]
          refine ⟨?_, ih hl.2⟩
          intro hmem
          obtain ⟨p2, hp2, hpe⟩ := List.mem_map.1 hmem
          obtain ⟨r2, hr2, hgr2⟩ := List.mem_filterMap.1 hp2
          apply hl.1
          have e1 := hg r q hgr
          have e2 := hg r2 p2 hgr2
          refine List.mem_map.2 ⟨r2, hr2, ?_⟩
          rw [← e2, hpe, e1]

/-- The joined rows of a keyword have duplicate-free post ids when
the association table has no duplicate pairs. -/
theorem assoc_rows_ids_nodup (db : DB) (k : Nat) (hpk : db.post_keywords.Nodup) :
    ((assoc_rows db k).map fun p => p.post_id).Nodup := by
  apply filterMap_fst_nodup
  · have hfil : (db.post_keywords.filter fun r => decide (r.2 = k)).Nodup :=
      hpk.filter _
    apply List.Nodup.map_on ?_ hfil
    intro x hx y hy hxy
    have hx2 : x.2 = k := by simpa using (List.mem_filter.1 hx).2
    have hy2 : y.2 = k := by simpa using (List.mem_filter.1 hy).2
    exact Prod.ext hxy (hx2.trans hy2.symm)
  · intro r q hq
    have := List.find?_some hq
    simpa using this

end CleanUp

namespace CleanUp

open Batch

/-- C5: for a keyword with 35 associated posts whose published times
are pairwise distinct, the cap pass selects exactly 5 overflow
associations — precisely those posts with at least 30 strictly newer
associated posts, i.e. the 5 oldest — removes exactly the overflow
posts' associations to this keyword, and deletes an overflow post if
and only if it retains no association to another keyword; in
particular an overflow post that is also associated with another
keyword (for example one kept by that keyword's top-30 window)
survives. -/
theorem c5_cap_pass (db : DB) (k : Nat)
    (hpk : db.post_keywords.Nodup)
    (hts : ((assoc_rows db k).map fun p => p.published_at).Nodup)
    (h35 : (assoc_rows db k).length = 35) :
    (find_old_posts db k).length = 5 ∧
      (∀ p ∈ assoc_rows db k,
        (p.post_id ∈ find_old_posts db k ↔
          30 ≤ (assoc_rows db k).countP fun q => p.published_at < q.published_at)) ∧
      (cap_keyword db k).1.post_keywords =
        db.post_keywords.filter (fun r => ¬(r.1 ∈ find_old_posts db k ∧ r.2 = k)) ∧
      (cap_keyword db k).1.posts =
        db.posts.filter (fun p => ¬(p.post_id ∈ find_old_posts db k ∧
          (db.post_keywords.filter fun r => r.1 = p.post_id ∧ r.2 ≠ k).length = 0)) ∧
      (∀ p ∈ db.posts, p.post_id ∈ find_old_posts db k →
        (∃ k2, (p.post_id, k2) ∈ db.post_keywords ∧ k2 ≠ k) →
        p ∈ (cap_keyword db k).1.posts) := by
  have hperm := List.perm_insertionSort post_ge (assoc_rows db k)
  have hsort := List.sorted_insertionSort post_ge (assoc_rows db k)
  have hmapnd :
      ((List.insertionSort post_ge (assoc_rows db k)).map fun p => p.published_at).Nodup :=
    ((hperm.map _).nodup_iff).2 hts
  have hstrict := sorted_strict hsort hmapnd
  have hids :
      ((List.insertionSort post_ge (assoc_rows db k)).map fun p => p.post_id).Nodup :=
    ((hperm.map _).nodup_iff).2 (assoc_rows_ids_nodup db k hpk)
  have holdeq : find_old_posts db k =
      ((List.insertionSort post_ge (assoc_rows db k)).drop 30).map fun p => p.post_id := rfl
  have holdnd : (find_old_posts db k).Nodup := by
    rw [holdeq, List.map_drop]
    exact hids.sublist (List.drop_sublist _ _)
  have hlenS : (List.insertionSort post_ge (assoc_rows db k)).length = 35 :=
    hperm.length_eq.trans h35
  obtain ⟨hfp, hfk, _, _⟩ := cap_fold k (find_old_posts db k) (db, 0, 0) holdnd
  refine ⟨?_, ?_, hfk, hfp, ?_⟩
  · rw [holdeq, List.length_map, List.length_drop, hlenS]
  · intro p hpmem
    have hpS : p ∈ List.insertionSort post_ge (assoc_rows db k) := hperm.mem_iff.2 hpmem
    have hcnt := hperm.countP_eq fun q => decide (p.published_at < q.published_at)
    constructor
    · intro hin
      rw [holdeq] at hin
      obtain ⟨p2, hp2, hpe⟩ := List.mem_map.1 hin
      have hp2S : p2 ∈ List.insertionSort post_ge (assoc_rows db k) :=
        List.drop_subset _ _ hp2
      have hp2assoc : p2 ∈ assoc_rows db k := hperm.mem_iff.1 hp2S
      have hp2p : p2 = p :=
        List.inj_on_of_nodup_map (assoc_rows_ids_nodup db k hpk) hp2assoc hpmem hpe
      rw [hp2p] at hp2
      have hchar := (mem_drop_iff_count _ hstrict 30 p).1 hp2
      rw [← hcnt]
      exact hchar.2
    · intro hge
      have h30 : 30 ≤ (List.insertionSort post_ge (assoc_rows db k)).countP
          fun q => decide (p.published_at < q.published_at) := by
        rw [hcnt]
        exact hge
      have hdrop := (mem_drop_iff_count _ hstrict 30 p).2 ⟨hpS, h30⟩
      rw [holdeq]
      exact List.mem_map.2 ⟨p, hdrop, rfl⟩
  · intro p hp hold hex
    obtain ⟨k2, hk2, hk2ne⟩ := hex
    show p ∈ (List.foldl (cap_step k) (db, 0, 0) (find_old_posts db k)).1.posts
    rw [hfp]
    refine List.mem_filter.2 ⟨hp, ?_⟩
    simp only [decide_eq_true_eq]
    rintro ⟨_, hlen0⟩
    have hmemf : (p.post_id, k2) ∈
        db.post_keywords.filter fun r => decide (r.1 = p.post_id ∧ r.2 ≠ k) :=
      List.mem_filter.2 ⟨hk2, by simp [hk2ne]⟩
    have hpos := List.length_pos.2 (List.ne_nil_of_mem hmemf)
    omega

end CleanUp

namespace CleanUp

open Batch

/-- A database with 35 posts (ids 0..34, published at time i) all
associated with keyword 7; post 2 is additionally associated with
keyword 9. -/
def cap_db : DB :=
  ⟨(List.range 35).map fun i => ⟨i, [], [], [], [], [], i⟩,
   ((List.range 35).map fun i => (i, 7)) ++ [(2, 9)],
   [⟨7, "x1".toList, [], true, false⟩, ⟨9, "x2".toList, [], true, false⟩],
   35⟩

/-- C5 witness: the cap-pass theorem applied to the concrete
35-post database. -/
theorem c5_cap_pass_witness :
    cap_db.post_keywords.Nodup ∧
      ((assoc_rows cap_db 7).map fun p => p.published_at).Nodup ∧
      (assoc_rows cap_db 7).length = 35 ∧
      (find_old_posts cap_db 7).length = 5 :=
  ⟨by decide, by decide, by decide,
    (c5_cap_pass cap_db 7 (by decide) (by decide) (by decide)).1⟩

end CleanUp
